import Mathlib

set_option maxRecDepth 100000

/-!
Verification development for a PNG steganography tool.

The tool stores and retrieves byte payloads inside PNG ancillary chunks.  The
embedding below translates the chunk model (`src/chunk.rs`) and the command
layer (`src/commands.rs`) into Lean.  The `ChunkType` and `Png` components are
referenced by `main.rs` but their source files are not part of the sources, so
they are modelled from the design document, as marked on each definition.

Bytes are modelled as natural numbers (values of Rust's `u8` are `< 256`);
machine-integer casts such as `as u32` are made explicit with `% 2 ^ 32`.
Strings are modelled by their UTF-8 byte sequences.
-/

/-- Is `b` the code of an ASCII letter (`A`-`Z` or `a`-`z`)?  This is the sole
validation rule for chunk-type bytes. -/
def isAsciiLetter (b : Nat) : Bool :=
  (65 ≤ b && b ≤ 90) || (97 ≤ b && b ≤ 122)

/-- The reflected CRC-32 (ISO-HDLC) polynomial `0xEDB88320`, as used by the
`crc` crate's `CRC_32_ISO_HDLC` algorithm that `chunk.rs` instantiates. -/
def crcPoly : Nat := 0xEDB88320

/-- One bit-round of the reflected CRC-32 state update. -/
def step1 (s : Nat) : Nat :=
  if s % 2 = 1 then (s / 2) ^^^ crcPoly else s / 2

/-- Eight bit-rounds: the state update performed for one input byte after the
byte has been xor-ed into the low bits of the state. -/
def rounds8 (s : Nat) : Nat :=
  step1 (step1 (step1 (step1 (step1 (step1 (step1 (step1 s)))))))

/-- CRC-32 state after absorbing one input byte. -/
def byteStep (s b : Nat) : Nat := rounds8 (s ^^^ b)

/-- CRC-32 state after absorbing a whole message, starting from state `s`. -/
def crcFold (s : Nat) (msg : List Nat) : Nat := msg.foldl byteStep s

/-- CRC-32/ISO-HDLC of a byte sequence: initial state `0xFFFFFFFF`, final xor
`0xFFFFFFFF`.  This models `crc::Crc::<u32>::new(&crc::CRC_32_ISO_HDLC).checksum`. -/
def crc32 (msg : List Nat) : Nat := crcFold 0xFFFFFFFF msg ^^^ 0xFFFFFFFF

/-- Modelled from the spec: `ChunkType` (declared in `main.rs` as module
`chunk_type`, whose source file is not among the sources) wraps exactly 4
bytes; per the design document every byte must be an ASCII letter, enforced at
construction. -/
structure ChunkType where
  b0 : Nat
  b1 : Nat
  b2 : Nat
  b3 : Nat
deriving DecidableEq, Repr

/-- `ChunkType::bytes()`: the raw 4 bytes. -/
def ChunkType.bytes (t : ChunkType) : List Nat := [t.b0, t.b1, t.b2, t.b3]

/-- Modelled from the spec: `ChunkType::try_from([u8; 4])` fails (with the
`InvalidChunkType` error, here `none`) unless every byte is an ASCII letter. -/
def ChunkType.tryFrom (b0 b1 b2 b3 : Nat) : Option ChunkType :=
  if isAsciiLetter b0 && isAsciiLetter b1 && isAsciiLetter b2 && isAsciiLetter b3 then
    some ⟨b0, b1, b2, b3⟩
  else none

/-- `Chunk` (`src/chunk.rs`): a chunk type, an owned payload, and a cached
CRC-32. -/
structure Chunk where
  chunkType : ChunkType
  data : List Nat
  crc : Nat
deriving DecidableEq, Repr

/-- `Chunk::new`: computes the CRC over the 4 type bytes followed by the
payload and stores it; always succeeds. -/
def Chunk.new (chunkType : ChunkType) (data : List Nat) : Chunk :=
  { chunkType := chunkType, data := data, crc := crc32 (chunkType.bytes ++ data) }

/-- `Chunk::length`: payload length as a `u32` (`self.data.len() as u32`). -/
def Chunk.length (c : Chunk) : Nat := c.data.length % 2 ^ 32

/-- Big-endian bytes of `n as u32` (`u32::to_be_bytes` applied after the
truncating cast). -/
def u32be (n : Nat) : List Nat :=
  [n / 2 ^ 24 % 256, n / 2 ^ 16 % 256, n / 2 ^ 8 % 256, n % 256]

/-- `u32::from_be_bytes` on four byte values. -/
def fromBE4 (a b c d : Nat) : Nat := ((a * 256 + b) * 256 + c) * 256 + d

/-- `Chunk::as_bytes`: length as big-endian `u32`, the 4 type bytes, the
payload, then the CRC as big-endian `u32`. -/
def Chunk.as_bytes (c : Chunk) : List Nat :=
  u32be c.data.length ++ c.chunkType.bytes ++ c.data ++ u32be c.crc

/-- Outcome of `Chunk::try_from(&[u8])`.  `panic` records that the Rust code
faults with an out-of-bounds slice index instead of returning; the two
`InvalidData` errors are distinguished by their messages ("Invalid data
length" vs "Invalid CRC"). -/
inductive ChunkParseResult where
  | panic
  | errType
  | errLength
  | errCrc
  | ok (c : Chunk)
deriving DecidableEq, Repr

/-- `Chunk::try_from(&[u8])` from `src/chunk.rs`.  The Rust code indexes
`bytes[0..4]`, `bytes[4]..bytes[7]`, `bytes[8..len-4]` and `bytes[len-4..]`
without bounds checks: inputs shorter than 8 bytes fault before the chunk-type
check, and inputs of 8..11 bytes with a valid chunk type fault at the payload
slice; both are modelled as `panic`.  The Rust locals `length`, `data`,
`tail` and `crc` are pure reads and are inlined at their use sites. -/
def Chunk.tryFrom (bytes : List Nat) : ChunkParseResult :=
  if bytes.length < 8 then ChunkParseResult.panic
  else
    match ChunkType.tryFrom (bytes.getD 4 0) (bytes.getD 5 0) (bytes.getD 6 0) (bytes.getD 7 0) with
    | none => ChunkParseResult.errType
    | some t =>
      if bytes.length < 12 then ChunkParseResult.panic
      else if ((bytes.drop 8).take (bytes.length - 12)).length % 2 ^ 32
          ≠ fromBE4 (bytes.getD 0 0) (bytes.getD 1 0) (bytes.getD 2 0) (bytes.getD 3 0) then
        ChunkParseResult.errLength
      else if crc32 ((bytes.drop 4).take (bytes.length - 8))
          ≠ fromBE4 ((bytes.drop (bytes.length - 4)).getD 0 0)
              ((bytes.drop (bytes.length - 4)).getD 1 0)
              ((bytes.drop (bytes.length - 4)).getD 2 0)
              ((bytes.drop (bytes.length - 4)).getD 3 0) then
        ChunkParseResult.errCrc
      else
        ChunkParseResult.ok
          { chunkType := t
            data := (bytes.drop 8).take (bytes.length - 12)
            crc := fromBE4 ((bytes.drop (bytes.length - 4)).getD 0 0)
              ((bytes.drop (bytes.length - 4)).getD 1 0)
              ((bytes.drop (bytes.length - 4)).getD 2 0)
              ((bytes.drop (bytes.length - 4)).getD 3 0) }

/-- Is `b` a UTF-8 continuation byte (`0x80..0xBF`)? -/
def utf8Cont (b : Nat) : Bool := 128 ≤ b && b ≤ 191

/-- Strict UTF-8 validity of a byte sequence, as accepted by Rust's
`String::from_utf8`: rejects overlong encodings, surrogates and code points
above `0x10FFFF`. -/
def utf8Valid : List Nat → Bool
  | [] => true
  | b :: rest =>
    if b < 128 then utf8Valid rest
    else if 194 ≤ b && b ≤ 223 then
      match rest with
      | c1 :: r => utf8Cont c1 && utf8Valid r
      | [] => false
    else if b = 224 then
      match rest with
      | c1 :: c2 :: r => (160 ≤ c1 && c1 ≤ 191) && utf8Cont c2 && utf8Valid r
      | _ => false
    else if 225 ≤ b && b ≤ 236 then
      match rest with
      | c1 :: c2 :: r => utf8Cont c1 && utf8Cont c2 && utf8Valid r
      | _ => false
    else if b = 237 then
      match rest with
      | c1 :: c2 :: r => (128 ≤ c1 && c1 ≤ 159) && utf8Cont c2 && utf8Valid r
      | _ => false
    else if 238 ≤ b && b ≤ 239 then
      match rest with
      | c1 :: c2 :: r => utf8Cont c1 && utf8Cont c2 && utf8Valid r
      | _ => false
    else if b = 240 then
      match rest with
      | c1 :: c2 :: c3 :: r => (144 ≤ c1 && c1 ≤ 191) && utf8Cont c2 && utf8Cont c3 && utf8Valid r
      | _ => false
    else if 241 ≤ b && b ≤ 243 then
      match rest with
      | c1 :: c2 :: c3 :: r => utf8Cont c1 && utf8Cont c2 && utf8Cont c3 && utf8Valid r
      | _ => false
    else if b = 244 then
      match rest with
      | c1 :: c2 :: c3 :: r => (128 ≤ c1 && c1 ≤ 143) && utf8Cont c2 && utf8Cont c3 && utf8Valid r
      | _ => false
    else false

/-- `Chunk::data_as_string`: the payload interpreted as UTF-8 text (strings
are modelled by their byte sequences), or `none` for the `FromUtf8Error`. -/
def Chunk.data_as_string (c : Chunk) : Option (List Nat) :=
  if utf8Valid c.data then some c.data else none

/-- Modelled from the spec: the fixed 8-byte PNG signature
`89 50 4E 47 0D 0A 1A 0A`. -/
def pngSignature : List Nat := [137, 80, 78, 71, 13, 10, 26, 10]

/-- Modelled from the spec: `Png` (module `png` of `main.rs`, whose source
file is not among the sources) owns the signature plus an ordered chunk
sequence. -/
structure Png where
  chunks : List Chunk
deriving DecidableEq, Repr

/-- The errors of the tool, a closed enumeration (`InvalidData` split by its
two messages). -/
inductive CmdError where
  | invalidChunkType
  | invalidLengthData
  | invalidCrcData
  | invalidSignature
  | invalidUtf8
  | chunkNotFound
deriving DecidableEq, Repr

/-- Fallible outcome carrying one of the tool's errors. -/
inductive RResult (α : Type) where
  | err (e : CmdError)
  | ok (a : α)
deriving DecidableEq, Repr

/-- Modelled from the spec: `Png::as_bytes` is the signature followed by each
chunk's serialization in sequence order. -/
def Png.as_bytes (p : Png) : List Nat :=
  pngSignature ++ (p.chunks.map Chunk.as_bytes).flatten

/-- Modelled from the spec: repeatedly parse one chunk at a time — each chunk
self-describes its length via its first 4 bytes — until the bytes are
exhausted; any chunk-level failure (including truncation, which the design
document requires to surface as a reported error) aborts the whole parse.
The recursion is driven by a fuel argument so that it is structural; each
step consumes at least 12 bytes, so fuel equal to the byte count (as passed
by `parseChunks`) can never run out on the non-empty case. -/
def parseChunksFuel : Nat → List Nat → RResult (List Chunk)
  | _, [] => RResult.ok []
  | 0, _ :: _ => RResult.err CmdError.invalidLengthData
  | fuel + 1, b :: rest =>
    let bs := b :: rest
    let n := fromBE4 (bs.getD 0 0) (bs.getD 1 0) (bs.getD 2 0) (bs.getD 3 0)
    if bs.length < n + 12 then RResult.err CmdError.invalidLengthData
    else
      match Chunk.tryFrom (bs.take (n + 12)) with
      | ChunkParseResult.ok c =>
        match parseChunksFuel fuel (bs.drop (n + 12)) with
        | RResult.ok cs => RResult.ok (c :: cs)
        | RResult.err e => RResult.err e
      | ChunkParseResult.errType => RResult.err CmdError.invalidChunkType
      | ChunkParseResult.errLength => RResult.err CmdError.invalidLengthData
      | ChunkParseResult.errCrc => RResult.err CmdError.invalidCrcData
      | ChunkParseResult.panic => RResult.err CmdError.invalidLengthData

/-- Modelled from the spec: parse a whole chunk stream. -/
def parseChunks (bs : List Nat) : RResult (List Chunk) :=
  parseChunksFuel bs.length bs

/-- Modelled from the spec: `Png::try_from` checks the 8-byte signature
(failing with `InvalidSignature`) and then parses the chunk sequence. -/
def Png.tryFrom (bs : List Nat) : RResult Png :=
  if bs.take 8 ≠ pngSignature then RResult.err CmdError.invalidSignature
  else
    match parseChunks (bs.drop 8) with
    | RResult.ok cs => RResult.ok ⟨cs⟩
    | RResult.err e => RResult.err e

/-- Modelled from the spec: `append_chunk` pushes to the end of the sequence. -/
def Png.append_chunk (p : Png) (c : Chunk) : Png := ⟨p.chunks ++ [c]⟩

/-- Modelled from the spec: `chunk_by_type` linearly scans for the first chunk
whose 4 type bytes equal the bytes of the given type string; absence is a
normal outcome, not an error. -/
def Png.chunk_by_type (p : Png) (ty : List Nat) : Option Chunk :=
  p.chunks.find? (fun c => c.chunkType.bytes == ty)

/-- Helper for `remove_first_chunk`: remove and return the first chunk with
the given type from an ordered chunk list. -/
def removeFirstAux : List Chunk → ChunkType → Option (Chunk × List Chunk)
  | [], _ => none
  | c :: cs, t =>
    if c.chunkType = t then some (c, cs)
    else
      match removeFirstAux cs t with
      | some (r, rest) => some (r, c :: rest)
      | none => none

/-- Modelled from the spec: `remove_first_chunk` parses the type string into a
`ChunkType` (propagating `InvalidChunkType`, including when the string is not
exactly 4 bytes), removes and returns the first matching chunk, and fails with
`ChunkNotFound` when none matches. -/
def Png.remove_first_chunk (p : Png) (ty : List Nat) : RResult (Chunk × Png) :=
  match ty with
  | [b0, b1, b2, b3] =>
    match ChunkType.tryFrom b0 b1 b2 b3 with
    | none => RResult.err CmdError.invalidChunkType
    | some t =>
      match removeFirstAux p.chunks t with
      | some (c, rest) => RResult.ok (c, ⟨rest⟩)
      | none => RResult.err CmdError.chunkNotFound
  | _ => RResult.err CmdError.invalidChunkType

/-- Outcome of a command invocation: `panic` records a Rust `unwrap` failure,
`err` an error value propagated with `?`, `ok` a normal result. -/
inductive CmdResult (α : Type) where
  | panic
  | err (e : CmdError)
  | ok (a : α)
deriving DecidableEq, Repr

/-- `commands::encode` over in-memory bytes: load the Png from the input file
bytes, convert the chunk-type string to `[u8; 4]` — the Rust code does
`try_into().unwrap()`, which panics when the string's byte length is not 4 —
then validate it, append `Chunk::new(type, message-bytes)` and return the
serialized result (the bytes written to the output file). -/
def encode (fileBytes tyStr msg : List Nat) : CmdResult (List Nat) :=
  match Png.tryFrom fileBytes with
  | RResult.err e => CmdResult.err e
  | RResult.ok png =>
    if tyStr.length ≠ 4 then CmdResult.panic
    else
      match ChunkType.tryFrom (tyStr.getD 0 0) (tyStr.getD 1 0) (tyStr.getD 2 0) (tyStr.getD 3 0) with
      | none => CmdResult.err CmdError.invalidChunkType
      | some t => CmdResult.ok (Png.as_bytes (png.append_chunk (Chunk.new t msg)))

/-- `commands::decode` over in-memory bytes: load the Png, look up the first
chunk of the given type, and return its payload as text (`none` when no chunk
matches — not an error). -/
def decode (fileBytes tyStr : List Nat) : CmdResult (Option (List Nat)) :=
  match Png.tryFrom fileBytes with
  | RResult.err e => CmdResult.err e
  | RResult.ok png =>
    match png.chunk_by_type tyStr with
    | none => CmdResult.ok none
    | some c =>
      match c.data_as_string with
      | none => CmdResult.err CmdError.invalidUtf8
      | some s => CmdResult.ok (some s)

/-- `commands::remove` over an explicit file state: the pair is (command
outcome, file contents after the run).  `fs::write` is the only state change
and the Rust code reaches it only after `remove_first_chunk` succeeded, via
the `?` operator; on the error paths the file keeps its previous bytes. -/
def removeRun (file ty : List Nat) : CmdResult Unit × List Nat :=
  match Png.tryFrom file with
  | RResult.err e => (CmdResult.err e, file)
  | RResult.ok png =>
    match png.remove_first_chunk ty with
    | RResult.err e => (CmdResult.err e, file)
    | RResult.ok (_, png2) => (CmdResult.ok (), Png.as_bytes png2)

/-! ### Arithmetic facts about the CRC-32 state machine -/

lemma isAsciiLetter_lt {b : Nat} (h : isAsciiLetter b = true) : b < 256 := by
  simp only [isAsciiLetter, Bool.or_eq_true, Bool.and_eq_true, decide_eq_true_eq] at h
  omega

lemma step1_lt {s : Nat} (hs : s < 2 ^ 32) : step1 s < 2 ^ 32 := by
  unfold step1
  split
  · exact Nat.xor_lt_two_pow (by omega) (by norm_num [crcPoly])
  · omega

lemma step1_inj {s t : Nat} (hs : s < 2 ^ 32) (ht : t < 2 ^ 32)
    (h : step1 s = step1 t) : s = t := by
  unfold step1 at h
  by_cases h1 : s % 2 = 1 <;> by_cases h2 : t % 2 = 1 <;>
    simp only [h1, h2, if_true, if_false, reduceIte] at h
  · have := Nat.xor_left_inj.mp h
    omega
  · exfalso
    have hbit : ((s / 2) ^^^ crcPoly).testBit 31 = true := by
      rw [Nat.testBit_xor]
      rw [Nat.testBit_lt_two_pow (x := s / 2) (by omega)]
      decide
    have hge := Nat.testBit_implies_ge hbit
    have : t / 2 < 2 ^ 31 := by omega
    omega
  · exfalso
    have hbit : ((t / 2) ^^^ crcPoly).testBit 31 = true := by
      rw [Nat.testBit_xor]
      rw [Nat.testBit_lt_two_pow (x := t / 2) (by omega)]
      decide
    have hge := Nat.testBit_implies_ge hbit
    have : s / 2 < 2 ^ 31 := by omega
    omega
  · omega

lemma rounds8_lt {s : Nat} (hs : s < 2 ^ 32) : rounds8 s < 2 ^ 32 := by
  unfold rounds8
  exact step1_lt (step1_lt (step1_lt (step1_lt (step1_lt (step1_lt (step1_lt (step1_lt hs)))))))

lemma rounds8_inj {s t : Nat} (hs : s < 2 ^ 32) (ht : t < 2 ^ 32)
    (h : rounds8 s = rounds8 t) : s = t := by
  unfold rounds8 at h
  have l1 := step1_lt hs
  have l2 := step1_lt l1
  have l3 := step1_lt l2
  have l4 := step1_lt l3
  have l5 := step1_lt l4
  have l6 := step1_lt l5
  have l7 := step1_lt l6
  have m1 := step1_lt ht
  have m2 := step1_lt m1
  have m3 := step1_lt m2
  have m4 := step1_lt m3
  have m5 := step1_lt m4
  have m6 := step1_lt m5
  have m7 := step1_lt m6
  exact step1_inj hs ht (step1_inj l1 m1 (step1_inj l2 m2 (step1_inj l3 m3
    (step1_inj l4 m4 (step1_inj l5 m5 (step1_inj l6 m6 (step1_inj l7 m7 h)))))))

lemma byteStep_lt {s b : Nat} (hs : s < 2 ^ 32) (hb : b < 2 ^ 32) :
    byteStep s b < 2 ^ 32 :=
  rounds8_lt (Nat.xor_lt_two_pow hs hb)

lemma byteStep_inj_state {s t b : Nat} (hs : s < 2 ^ 32) (ht : t < 2 ^ 32) (hb : b < 2 ^ 32)
    (h : byteStep s b = byteStep t b) : s = t := by
  have := rounds8_inj (Nat.xor_lt_two_pow hs hb) (Nat.xor_lt_two_pow ht hb) h
  exact Nat.xor_left_inj.mp this

lemma byteStep_inj_byte {s b b' : Nat} (hs : s < 2 ^ 32) (hb : b < 2 ^ 32) (hb' : b' < 2 ^ 32)
    (h : byteStep s b = byteStep s b') : b = b' := by
  have := rounds8_inj (Nat.xor_lt_two_pow hs hb) (Nat.xor_lt_two_pow hs hb') h
  exact Nat.xor_right_inj.mp this

lemma crcFold_lt {s : Nat} (msg : List Nat) (hs : s < 2 ^ 32)
    (hm : ∀ b ∈ msg, b < 2 ^ 32) : crcFold s msg < 2 ^ 32 := by
  induction msg generalizing s with
  | nil => exact hs
  | cons b rest ih =>
    have hb : b < 2 ^ 32 := hm b (List.mem_cons_self b rest)
    exact ih (byteStep_lt hs hb) (fun x hx => hm x (List.mem_cons_of_mem b hx))

lemma crcFold_inj {s t : Nat} (msg : List Nat) (hs : s < 2 ^ 32) (ht : t < 2 ^ 32)
    (hm : ∀ b ∈ msg, b < 2 ^ 32) (h : crcFold s msg = crcFold t msg) : s = t := by
  induction msg generalizing s t with
  | nil => exact h
  | cons b rest ih =>
    have hb : b < 2 ^ 32 := hm b (List.mem_cons_self b rest)
    have := ih (byteStep_lt hs hb) (byteStep_lt ht hb)
      (fun x hx => hm x (List.mem_cons_of_mem b hx)) h
    exact byteStep_inj_state hs ht hb this

lemma crcFold_append (s : Nat) (xs ys : List Nat) :
    crcFold s (xs ++ ys) = crcFold (crcFold s xs) ys := by
  simp [crcFold, List.foldl_append]

lemma crc32_lt (msg : List Nat) (hm : ∀ b ∈ msg, b < 2 ^ 32) : crc32 msg < 2 ^ 32 := by
  unfold crc32
  exact Nat.xor_lt_two_pow (crcFold_lt msg (by norm_num) hm) (by norm_num)

/-- Single-byte sensitivity of CRC-32: two messages that agree everywhere except
at one byte position have different checksums. -/
lemma crc32_ne_of_byte_ne (xs ys : List Nat) (b b' : Nat)
    (hxs : ∀ x ∈ xs, x < 2 ^ 32) (hys : ∀ x ∈ ys, x < 2 ^ 32)
    (hb : b < 2 ^ 32) (hb' : b' < 2 ^ 32) (hne : b ≠ b') :
    crc32 (xs ++ b :: ys) ≠ crc32 (xs ++ b' :: ys) := by
  intro heq
  unfold crc32 at heq
  have hfold := Nat.xor_left_inj.mp heq
  rw [crcFold_append, crcFold_append] at hfold
  have hst : crcFold 0xFFFFFFFF xs < 2 ^ 32 := crcFold_lt xs (by norm_num) hxs
  have hcons : ∀ (c : Nat), crcFold (crcFold 0xFFFFFFFF xs) (c :: ys) =
      crcFold (byteStep (crcFold 0xFFFFFFFF xs) c) ys := fun c => rfl
  rw [hcons b, hcons b'] at hfold
  have := crcFold_inj ys (byteStep_lt hst hb) (byteStep_lt hst hb') hys hfold
  exact hne (byteStep_inj_byte hst hb hb' this)

/-! ### Big-endian encoding facts -/

lemma u32be_length (n : Nat) : (u32be n).length = 4 := rfl

lemma fromBE4_u32be (n : Nat) :
    fromBE4 ((u32be n).getD 0 0) ((u32be n).getD 1 0) ((u32be n).getD 2 0) ((u32be n).getD 3 0)
      = n % 2 ^ 32 := by
  simp only [u32be, fromBE4, List.getD_cons_zero, List.getD_cons_succ]
  omega

lemma fromBE4_lt {a b c d : Nat} (ha : a < 256) (hb : b < 256) (hc : c < 256) (hd : d < 256) :
    fromBE4 a b c d < 2 ^ 32 := by
  simp only [fromBE4]
  omega

lemma u32be_mem_lt (n : Nat) : ∀ b ∈ u32be n, b < 256 := by
  simp only [u32be, List.mem_cons, List.not_mem_nil, or_false]
  rintro b (rfl | rfl | rfl | rfl) <;> omega

/-- The canonical validity condition for a `ChunkType`: reconstructing it from
its own bytes succeeds. -/
lemma chunkType_tryFrom_self {t : ChunkType}
    (h0 : isAsciiLetter t.b0 = true) (h1 : isAsciiLetter t.b1 = true)
    (h2 : isAsciiLetter t.b2 = true) (h3 : isAsciiLetter t.b3 = true) :
    ChunkType.tryFrom t.b0 t.b1 t.b2 t.b3 = some t := by
  simp [ChunkType.tryFrom, h0, h1, h2, h3]

lemma chunkType_bytes_lt {t : ChunkType}
    (h0 : isAsciiLetter t.b0 = true) (h1 : isAsciiLetter t.b1 = true)
    (h2 : isAsciiLetter t.b2 = true) (h3 : isAsciiLetter t.b3 = true) :
    ∀ b ∈ t.bytes, b < 256 := by
  simp only [ChunkType.bytes, List.mem_cons, List.not_mem_nil, or_false]
  rintro b (rfl | rfl | rfl | rfl)
  · exact isAsciiLetter_lt h0
  · exact isAsciiLetter_lt h1
  · exact isAsciiLetter_lt h2
  · exact isAsciiLetter_lt h3

/-! ### The anatomy of `Chunk::try_from` on a structured input

`tryFrom_structured` runs the parser on any byte sequence of the shape
`u32be |d| ++ type bytes ++ d ++ 4 trailing bytes` with a valid chunk type:
the length and type gates always pass, and the outcome is decided entirely by
the CRC comparison.  All claims about well-formed or tampered serialized
chunks reduce to it. -/

lemma tryFrom_structured (t : ChunkType)
    (h0 : isAsciiLetter t.b0 = true) (h1 : isAsciiLetter t.b1 = true)
    (h2 : isAsciiLetter t.b2 = true) (h3 : isAsciiLetter t.b3 = true)
    (d : List Nat) (e0 e1 e2 e3 : Nat) :
    Chunk.tryFrom (u32be d.length ++ t.bytes ++ d ++ [e0, e1, e2, e3]) =
      if crc32 (t.bytes ++ d) = fromBE4 e0 e1 e2 e3 then
        ChunkParseResult.ok { chunkType := t, data := d, crc := fromBE4 e0 e1 e2 e3 }
      else ChunkParseResult.errCrc := by
  set bs : List Nat := u32be d.length ++ t.bytes ++ d ++ [e0, e1, e2, e3] with hbs
  have hlen : bs.length = 12 + d.length := by
    simp only [hbs, List.length_append, u32be_length, ChunkType.bytes, List.length_cons,
      List.length_nil]
    omega
  have hexp : bs = (u32be d.length ++ t.bytes) ++ (d ++ [e0, e1, e2, e3]) := by
    simp [hbs, List.append_assoc]
  have hhead8 : (u32be d.length ++ t.bytes).length = 8 := by
    simp [u32be, ChunkType.bytes]
  have hdrop8 : bs.drop 8 = d ++ [e0, e1, e2, e3] := by
    rw [hexp, ← hhead8, List.drop_left]
  have hdata : (bs.drop 8).take (bs.length - 12) = d := by
    rw [hdrop8, hlen]
    simp only [Nat.add_sub_cancel_left]
    exact List.take_left d [e0, e1, e2, e3]
  have hexp2 : bs = (u32be d.length ++ t.bytes ++ d) ++ [e0, e1, e2, e3] := by
    simp [hbs, List.append_assoc]
  have hhead8d : (u32be d.length ++ t.bytes ++ d).length = 8 + d.length := by
    simp only [List.length_append, u32be_length, ChunkType.bytes, List.length_cons,
      List.length_nil]
  have htail : bs.drop (bs.length - 4) = [e0, e1, e2, e3] := by
    rw [hexp2, hlen]
    have : 12 + d.length - 4 = (u32be d.length ++ t.bytes ++ d).length := by
      rw [hhead8d]; omega
    rw [this, List.drop_left]
  have hdrop4 : bs.drop 4 = t.bytes ++ (d ++ [e0, e1, e2, e3]) := by
    have h4 : (u32be d.length).length = 4 := u32be_length d.length
    have : bs = u32be d.length ++ (t.bytes ++ (d ++ [e0, e1, e2, e3])) := by
      simp [hbs, List.append_assoc]
    rw [this, ← h4, List.drop_left]
  have hregion : (bs.drop 4).take (bs.length - 8) = t.bytes ++ d := by
    rw [hdrop4, hlen]
    have hb4 : t.bytes.length = 4 := rfl
    have : 12 + d.length - 8 = t.bytes.length + d.length := by rw [hb4]; omega
    rw [this, List.take_append]
    simp [List.take_left]
  have hget0 : bs.getD 0 0 = (u32be d.length).getD 0 0 := by
    rw [hbs]; simp [u32be]
  have hget1 : bs.getD 1 0 = (u32be d.length).getD 1 0 := by
    rw [hbs]; simp [u32be]
  have hget2 : bs.getD 2 0 = (u32be d.length).getD 2 0 := by
    rw [hbs]; simp [u32be]
  have hget3 : bs.getD 3 0 = (u32be d.length).getD 3 0 := by
    rw [hbs]; simp [u32be]
  have hget4 : bs.getD 4 0 = t.b0 := by rw [hbs]; simp [u32be, ChunkType.bytes]
  have hget5 : bs.getD 5 0 = t.b1 := by rw [hbs]; simp [u32be, ChunkType.bytes]
  have hget6 : bs.getD 6 0 = t.b2 := by rw [hbs]; simp [u32be, ChunkType.bytes]
  have hget7 : bs.getD 7 0 = t.b3 := by rw [hbs]; simp [u32be, ChunkType.bytes]
  have hnotlt8 : ¬ bs.length < 8 := by omega
  have hnotlt12 : ¬ bs.length < 12 := by omega
  unfold Chunk.tryFrom
  rw [if_neg hnotlt8, hget4, hget5, hget6, hget7, chunkType_tryFrom_self h0 h1 h2 h3]
  simp only [if_neg hnotlt12]
  rw [hget0, hget1, hget2, hget3, hdata, htail]
  simp only [List.getD_cons_zero, List.getD_cons_succ]
  rw [fromBE4_u32be]
  rw [if_neg (by omega : ¬ d.length % 2 ^ 32 ≠ d.length % 2 ^ 32)]
  rw [hregion]
  by_cases hcrc : crc32 (t.bytes ++ d) = fromBE4 e0 e1 e2 e3
  · rw [if_neg (by omega), if_pos hcrc]
  · rw [if_pos hcrc, if_neg (by simp [hcrc])]

/-! ### Inversion of a successful `Chunk::try_from` -/

lemma chunkType_tryFrom_inv {b0 b1 b2 b3 : Nat} {t : ChunkType}
    (h : ChunkType.tryFrom b0 b1 b2 b3 = some t) :
    t = ⟨b0, b1, b2, b3⟩ ∧ isAsciiLetter b0 = true ∧ isAsciiLetter b1 = true ∧
      isAsciiLetter b2 = true ∧ isAsciiLetter b3 = true := by
  unfold ChunkType.tryFrom at h
  split at h
  · rename_i hcond
    simp only [Bool.and_eq_true] at hcond
    cases h
    exact ⟨rfl, hcond.1.1.1, hcond.1.1.2, hcond.1.2, hcond.2⟩
  · exact absurd h (by simp)

lemma take4_drop (l : List Nat) (n : Nat) (h : n + 4 ≤ l.length) :
    (l.drop n).take 4 = [l.getD n 0, l.getD (n + 1) 0, l.getD (n + 2) 0, l.getD (n + 3) 0] := by
  have h0 : n < l.length := by omega
  have h1 : n + 1 < l.length := by omega
  have h2 : n + 2 < l.length := by omega
  have h3 : n + 3 < l.length := by omega
  rw [List.drop_eq_getElem_cons h0, List.drop_eq_getElem_cons h1,
    List.drop_eq_getElem_cons h2, List.drop_eq_getElem_cons h3]
  simp only [List.take_succ_cons, List.take_zero]
  rw [List.getD_eq_getElem l 0 h0, List.getD_eq_getElem l 0 h1,
    List.getD_eq_getElem l 0 h2, List.getD_eq_getElem l 0 h3]

/-- The CRC region `bytes[4 .. len-4]` is the 4 type bytes followed by the
payload region `bytes[8 .. len-4]`. -/
lemma region_decomp (bs : List Nat) (h : 12 ≤ bs.length) :
    (bs.drop 4).take (bs.length - 8) =
      [bs.getD 4 0, bs.getD 5 0, bs.getD 6 0, bs.getD 7 0] ++ (bs.drop 8).take (bs.length - 12) := by
  have hsplit : bs.length - 8 = 4 + (bs.length - 12) := by omega
  rw [hsplit, List.take_add, List.drop_drop]
  rw [take4_drop bs 4 (by omega)]

lemma tryFrom_ok_inversion {bs : List Nat} {c : Chunk}
    (h : Chunk.tryFrom bs = ChunkParseResult.ok c) :
    12 ≤ bs.length ∧
    ChunkType.tryFrom (bs.getD 4 0) (bs.getD 5 0) (bs.getD 6 0) (bs.getD 7 0) = some c.chunkType ∧
    c.data = (bs.drop 8).take (bs.length - 12) ∧
    (bs.length - 12) % 2 ^ 32 = fromBE4 (bs.getD 0 0) (bs.getD 1 0) (bs.getD 2 0) (bs.getD 3 0) ∧
    c.crc = crc32 ((bs.drop 4).take (bs.length - 8)) := by
  unfold Chunk.tryFrom at h
  split at h
  · exact absurd h (by simp)
  split at h
  · exact absurd h (by simp)
  split at h
  · exact absurd h (by simp)
  split at h
  · exact absurd h (by simp)
  split at h
  · exact absurd h (by simp)
  rename_i h8 t hty h12 hlen hcrc
  cases h
  push_neg at hlen hcrc
  have hdatalen : ((bs.drop 8).take (bs.length - 12)).length = bs.length - 12 := by
    rw [List.length_take, List.length_drop]
    omega
  refine ⟨by omega, hty, rfl, ?_, hcrc.symm⟩
  rw [← hdatalen]
  exact hlen

/-! ### Round-trip: parsing a freshly serialized chunk -/

lemma new_as_bytes_mem_lt {t : ChunkType} (d : List Nat)
    (h0 : isAsciiLetter t.b0 = true) (h1 : isAsciiLetter t.b1 = true)
    (h2 : isAsciiLetter t.b2 = true) (h3 : isAsciiLetter t.b3 = true)
    (hd : ∀ b ∈ d, b < 256) : ∀ b ∈ t.bytes ++ d, b < 2 ^ 32 := by
  intro b hb
  rcases List.mem_append.mp hb with hmem | hmem
  · have := chunkType_bytes_lt h0 h1 h2 h3 b hmem
    omega
  · have := hd b hmem
    omega

/-- Parsing the serialization of `Chunk::new(t, d)` gives back exactly the
same chunk, for any valid chunk type and any payload of bytes. -/
lemma tryFrom_new_as_bytes (t : ChunkType)
    (h0 : isAsciiLetter t.b0 = true) (h1 : isAsciiLetter t.b1 = true)
    (h2 : isAsciiLetter t.b2 = true) (h3 : isAsciiLetter t.b3 = true)
    (d : List Nat) (hd : ∀ b ∈ d, b < 256) :
    Chunk.tryFrom (Chunk.new t d).as_bytes = ChunkParseResult.ok (Chunk.new t d) := by
  have hcrc : crc32 (t.bytes ++ d) < 2 ^ 32 :=
    crc32_lt _ (new_as_bytes_mem_lt d h0 h1 h2 h3 hd)
  have hshape : (Chunk.new t d).as_bytes =
      u32be d.length ++ t.bytes ++ d ++
        [crc32 (t.bytes ++ d) / 2 ^ 24 % 256, crc32 (t.bytes ++ d) / 2 ^ 16 % 256,
         crc32 (t.bytes ++ d) / 2 ^ 8 % 256, crc32 (t.bytes ++ d) % 256] := rfl
  rw [hshape, tryFrom_structured t h0 h1 h2 h3 d _ _ _ _]
  have hbe : fromBE4 (crc32 (t.bytes ++ d) / 2 ^ 24 % 256) (crc32 (t.bytes ++ d) / 2 ^ 16 % 256)
      (crc32 (t.bytes ++ d) / 2 ^ 8 % 256) (crc32 (t.bytes ++ d) % 256) = crc32 (t.bytes ++ d) := by
    simp only [fromBE4]
    omega
  rw [hbe, if_pos rfl]
  rfl

/-! ### Claim theorems -/

/-- C1: every Chunk value, whether built by `Chunk::new(chunk_type, data)` or
returned by a successful `Chunk::try_from(bytes)`, satisfies
`crc() == CRC-32(type bytes ++ payload)` (ISO-HDLC polynomial). -/
theorem c1_chunk_crc_invariant :
    (∀ (t : ChunkType) (d : List Nat), (Chunk.new t d).crc = crc32 (t.bytes ++ d)) ∧
    (∀ (bs : List Nat) (c : Chunk), Chunk.tryFrom bs = ChunkParseResult.ok c →
      c.crc = crc32 (c.chunkType.bytes ++ c.data)) := by
  constructor
  · intro t d
    rfl
  · intro bs c h
    obtain ⟨h12, hty, hdata, _, hcrc⟩ := tryFrom_ok_inversion h
    obtain ⟨hteq, -, -, -, -⟩ := chunkType_tryFrom_inv hty
    have hbytes : c.chunkType.bytes = [bs.getD 4 0, bs.getD 5 0, bs.getD 6 0, bs.getD 7 0] := by
      rw [hteq]
      rfl
    rw [hcrc, region_decomp bs h12, ← hbytes, ← hdata]

theorem c1_chunk_crc_invariant_witness :
    Chunk.tryFrom (Chunk.new ⟨65, 98, 67, 100⟩ [1, 2, 3]).as_bytes
        = ChunkParseResult.ok (Chunk.new ⟨65, 98, 67, 100⟩ [1, 2, 3]) ∧
    (Chunk.new ⟨65, 98, 67, 100⟩ [1, 2, 3]).crc
        = crc32 ((Chunk.new ⟨65, 98, 67, 100⟩ [1, 2, 3]).chunkType.bytes
            ++ (Chunk.new ⟨65, 98, 67, 100⟩ [1, 2, 3]).data) :=
  ⟨by decide, c1_chunk_crc_invariant.2 (Chunk.new ⟨65, 98, 67, 100⟩ [1, 2, 3]).as_bytes
    (Chunk.new ⟨65, 98, 67, 100⟩ [1, 2, 3]) (by decide)⟩

/-- C2: for every chunk with a valid `ChunkType` and any byte payload
(including the empty payload), `Chunk::try_from` applied to the chunk's
`as_bytes()` output succeeds and yields a chunk with the same type bytes, the
same payload, and the same CRC. -/
theorem c2_serialize_parse_roundtrip (t : ChunkType) (d : List Nat)
    (h0 : isAsciiLetter t.b0 = true) (h1 : isAsciiLetter t.b1 = true)
    (h2 : isAsciiLetter t.b2 = true) (h3 : isAsciiLetter t.b3 = true)
    (hd : ∀ b ∈ d, b < 256) :
    Chunk.tryFrom (Chunk.new t d).as_bytes = ChunkParseResult.ok (Chunk.new t d) :=
  tryFrom_new_as_bytes t h0 h1 h2 h3 d hd

theorem c2_serialize_parse_roundtrip_witness :
    (isAsciiLetter 116 = true ∧ isAsciiLetter 101 = true ∧ isAsciiLetter 83 = true ∧
      (∀ b ∈ ([] : List Nat), b < 256)) ∧
    Chunk.tryFrom (Chunk.new ⟨116, 101, 83, 116⟩ []).as_bytes
      = ChunkParseResult.ok (Chunk.new ⟨116, 101, 83, 116⟩ []) :=
  ⟨⟨by decide, by decide, by decide, by decide⟩,
    c2_serialize_parse_roundtrip ⟨116, 101, 83, 116⟩ [] (by decide) (by decide) (by decide)
      (by decide) (by decide)⟩

/-- C6: `as_bytes()` is exactly the payload length as a big-endian `u32`, the
4 chunk-type bytes, the payload, then the CRC as a big-endian `u32`, and its
total length is the payload length plus 12. -/
theorem c6_as_bytes_layout (c : Chunk) :
    c.as_bytes.take 4 = u32be c.data.length ∧
    (c.as_bytes.drop 4).take 4 = c.chunkType.bytes ∧
    (c.as_bytes.drop 8).take c.data.length = c.data ∧
    c.as_bytes.drop (8 + c.data.length) = u32be c.crc ∧
    c.as_bytes.length = c.data.length + 12 := by
  have hlen4 : (u32be c.data.length).length = 4 := u32be_length _
  have htb4 : c.chunkType.bytes.length = 4 := rfl
  refine ⟨?_, ?_, ?_, ?_, ?_⟩
  · have : c.as_bytes = u32be c.data.length ++ (c.chunkType.bytes ++ (c.data ++ u32be c.crc)) := by
      simp [Chunk.as_bytes, List.append_assoc]
    rw [this, ← hlen4, List.take_left]
  · have : c.as_bytes = u32be c.data.length ++ (c.chunkType.bytes ++ (c.data ++ u32be c.crc)) := by
      simp [Chunk.as_bytes, List.append_assoc]
    rw [this, ← hlen4, List.drop_left, hlen4, ← htb4]
    exact List.take_left _ _
  · have : c.as_bytes = (u32be c.data.length ++ c.chunkType.bytes) ++ (c.data ++ u32be c.crc) := by
      simp [Chunk.as_bytes, List.append_assoc]
    have h8 : (u32be c.data.length ++ c.chunkType.bytes).length = 8 := by
      simp [u32be, ChunkType.bytes]
    rw [this, ← h8, List.drop_left, List.take_left]
  · have : c.as_bytes = (u32be c.data.length ++ c.chunkType.bytes ++ c.data) ++ u32be c.crc := by
      simp [Chunk.as_bytes, List.append_assoc]
    have h8d : (u32be c.data.length ++ c.chunkType.bytes ++ c.data).length = 8 + c.data.length := by
      simp only [List.length_append, u32be_length, htb4]
    rw [this, ← h8d, List.drop_left]
  · simp only [Chunk.as_bytes, List.length_append, u32be_length, htb4]
    omega

/-- The test scenario's chunk type string "RuSt" as bytes. -/
def rustType : ChunkType := ⟨82, 117, 83, 116⟩

/-- The test scenario's payload, the UTF-8 bytes of
"This is where your secret message will be!". -/
def secretMessage : List Nat :=
  [84, 104, 105, 115, 32, 105, 115, 32, 119, 104, 101, 114, 101, 32, 121, 111, 117, 114, 32,
   115, 101, 99, 114, 101, 116, 32, 109, 101, 115, 115, 97, 103, 101, 32, 119, 105, 108, 108,
   32, 98, 101, 33]

/-- C3 (recording the code's behaviour): `Chunk::try_from` is not total — on
inputs shorter than 12 bytes it faults with an out-of-bounds slice access
instead of returning the `InvalidData` error: shown on the empty slice and on
an 8-byte slice with a valid chunk type. -/
theorem c3_short_input_faults :
    Chunk.tryFrom [] = ChunkParseResult.panic ∧
    Chunk.tryFrom [0, 0, 0, 0, 82, 117, 83, 116] = ChunkParseResult.panic := by
  decide

/-- C5 counterexample: the claim's length 44 is wrong — the scenario payload
"This is where your secret message will be!" has 42 bytes, so the big-endian
`u32` length field of the serialized chunk decodes to 42, not 44. -/
theorem c5_counterexample :
    ¬ (fromBE4 ((Chunk.new rustType secretMessage).as_bytes.getD 0 0)
        ((Chunk.new rustType secretMessage).as_bytes.getD 1 0)
        ((Chunk.new rustType secretMessage).as_bytes.getD 2 0)
        ((Chunk.new rustType secretMessage).as_bytes.getD 3 0) = 44) := by
  decide

/-- C5 (amended): the "RuSt" / "This is where your secret message will be!"
scenario yields `crc() = 2882656334`, and the payload has 42 bytes, so the
big-endian `u32` length field of the serialized chunk equals 42. -/
theorem c5_scenario_amended :
    (Chunk.new rustType secretMessage).crc = 2882656334 ∧
    secretMessage.length = 42 ∧
    fromBE4 ((Chunk.new rustType secretMessage).as_bytes.getD 0 0)
        ((Chunk.new rustType secretMessage).as_bytes.getD 1 0)
        ((Chunk.new rustType secretMessage).as_bytes.getD 2 0)
        ((Chunk.new rustType secretMessage).as_bytes.getD 3 0) = 42 := by
  decide

/-- C7: encoding the message "hello" (bytes `[104, 101, 108, 108, 111]`)
under chunk type "teSt" (bytes `[116, 101, 83, 116]`) into the minimal valid
PNG (just the signature, no chunks), then decoding chunk type "teSt" from the
resulting file bytes, returns exactly the string "hello". -/
theorem c7_encode_then_decode_hello :
    encode pngSignature [116, 101, 83, 116] [104, 101, 108, 108, 111]
      = CmdResult.ok (Png.as_bytes
          (Png.append_chunk ⟨[]⟩ (Chunk.new ⟨116, 101, 83, 116⟩ [104, 101, 108, 108, 111]))) ∧
    decode (Png.as_bytes
        (Png.append_chunk ⟨[]⟩ (Chunk.new ⟨116, 101, 83, 116⟩ [104, 101, 108, 108, 111])))
      [116, 101, 83, 116] = CmdResult.ok (some [104, 101, 108, 108, 111]) := by
  decide

/-- C8 (recording the code's behaviour): `encode` panics — it does not return
the `InvalidChunkType` error — when the chunk-type string's byte length is
not 4 (here "abc"), because of `try_into().unwrap()`; only for 4-byte
non-letter strings (here "1234") does it return the error as a value. -/
theorem c8_encode_wrong_length_faults :
    encode pngSignature [97, 98, 99] [104, 105] = CmdResult.panic ∧
    encode pngSignature [49, 50, 51, 52] [104, 105]
      = CmdResult.err CmdError.invalidChunkType := by
  decide

/-- C9: the `remove` command is atomic with respect to the stored file — it
writes only after `remove_first_chunk` succeeded on the full in-memory Png,
so whenever the run ends in an error the file bytes are unchanged. -/
theorem c9_remove_atomic (file ty : List Nat) (e : CmdError)
    (h : (removeRun file ty).1 = CmdResult.err e) :
    (removeRun file ty).2 = file := by
  rcases hp : Png.tryFrom file with e2 | png
  · simp [removeRun, hp]
  · rcases hr : png.remove_first_chunk ty with e2 | ⟨c0, png2⟩
    · simp [removeRun, hp, hr]
    · exfalso
      simp [removeRun, hp, hr] at h

theorem c9_remove_atomic_witness :
    (removeRun pngSignature [116, 101, 83, 116]).1 = CmdResult.err CmdError.chunkNotFound ∧
    (removeRun pngSignature [116, 101, 83, 116]).2 = pngSignature :=
  ⟨by decide,
    c9_remove_atomic pngSignature [116, 101, 83, 116] CmdError.chunkNotFound (by decide)⟩

/-! ### Tamper detection -/

/-- Flip bit `k` of the byte at index `j`. -/
def flipBit (l : List Nat) (j k : Nat) : List Nat :=
  l.set j (l.getD j 0 ^^^ 2 ^ k)

lemma xor_two_pow_ne (x k : Nat) : x ^^^ 2 ^ k ≠ x := by
  intro h
  have h0 : x ^^^ 2 ^ k = x ^^^ 0 := by simpa using h
  have h2 := Nat.xor_right_inj.mp h0
  have hpos : 0 < 2 ^ k := Nat.pos_pow_of_pos k (by norm_num)
  omega

lemma xor_lt_256 {x : Nat} (hx : x < 256) {k : Nat} (hk : k < 8) : x ^^^ 2 ^ k < 256 := by
  have h2 : (2 : Nat) ^ k < 2 ^ 8 := Nat.pow_lt_pow_right (by norm_num) (by omega)
  have hx8 : x < 2 ^ 8 := by norm_num at hx ⊢; omega
  have := Nat.xor_lt_two_pow (n := 8) hx8 h2
  omega

lemma list_decomp_at (d : List Nat) (p : Nat) (hp : p < d.length) :
    d = d.take p ++ d.getD p 0 :: d.drop (p + 1) := by
  conv_lhs => rw [← List.take_append_drop p d]
  rw [List.drop_eq_getElem_cons hp, List.getD_eq_getElem d 0 hp]

lemma set_decomp_at (d : List Nat) (p : Nat) (hp : p < d.length) (v : Nat) :
    d.set p v = d.take p ++ v :: d.drop (p + 1) := by
  rw [List.set_eq_take_append_cons_drop, if_pos hp]

/-- Changing the byte at one position of the suffix changes the CRC-32 of the
whole message. -/
lemma crc32_set_ne (pre d : List Nat) (hpre : ∀ b ∈ pre, b < 2 ^ 32)
    (hd : ∀ b ∈ d, b < 256) (p : Nat) (hp : p < d.length) (v : Nat) (hv : v < 256)
    (hne : v ≠ d.getD p 0) :
    crc32 (pre ++ d.set p v) ≠ crc32 (pre ++ d) := by
  have hmemget : d.getD p 0 ∈ d := by
    rw [List.getD_eq_getElem d 0 hp]
    exact List.getElem_mem hp
  rw [set_decomp_at d p hp v]
  conv_rhs => rw [list_decomp_at d p hp]
  rw [← List.append_assoc, ← List.append_assoc]
  apply crc32_ne_of_byte_ne
  · intro x hx
    rcases List.mem_append.mp hx with hx | hx
    · exact hpre x hx
    · have := hd x (List.mem_of_mem_take hx)
      omega
  · intro x hx
    have := hd x (List.mem_of_mem_drop hx)
    omega
  · omega
  · have := hd _ hmemget
    omega
  · exact hne

lemma flip_as_bytes_payload (t : ChunkType) (d : List Nat) (X j k : Nat)
    (hj8 : 8 ≤ j) (hjlt : j < 8 + d.length) :
    flipBit (u32be d.length ++ t.bytes ++ d ++ u32be X) j k =
      u32be (d.set (j - 8) (d.getD (j - 8) 0 ^^^ 2 ^ k)).length ++ t.bytes ++
        d.set (j - 8) (d.getD (j - 8) 0 ^^^ 2 ^ k) ++ u32be X := by
  have hhead : (u32be d.length ++ t.bytes).length = 8 := by
    simp [u32be, ChunkType.bytes]
  have hassoc : u32be d.length ++ t.bytes ++ d ++ u32be X =
      (u32be d.length ++ t.bytes) ++ (d ++ u32be X) := by
    simp [List.append_assoc]
  have hget : (u32be d.length ++ t.bytes ++ d ++ u32be X).getD j 0 = d.getD (j - 8) 0 := by
    rw [hassoc, List.getD_append_right _ _ _ _ (by rw [hhead]; omega), hhead,
      List.getD_append _ _ _ _ (by omega)]
  unfold flipBit
  rw [hget, hassoc, List.set_append, if_neg (by rw [hhead]; omega), hhead,
    List.set_append, if_pos (by omega : j - 8 < d.length)]
  simp [List.append_assoc, List.length_set]

lemma flip_as_bytes_crcfield (t : ChunkType) (d : List Nat) (X j k : Nat)
    (hj : 8 + d.length ≤ j) (hjlt : j < 12 + d.length) :
    flipBit (u32be d.length ++ t.bytes ++ d ++ u32be X) j k =
      u32be d.length ++ t.bytes ++ d ++
        (u32be X).set (j - (8 + d.length)) ((u32be X).getD (j - (8 + d.length)) 0 ^^^ 2 ^ k) := by
  have hhead : (u32be d.length ++ t.bytes ++ d).length = 8 + d.length := by
    simp only [List.length_append, u32be_length, ChunkType.bytes, List.length_cons,
      List.length_nil]
  have hassoc : u32be d.length ++ t.bytes ++ d ++ u32be X =
      (u32be d.length ++ t.bytes ++ d) ++ u32be X := by
    simp [List.append_assoc]
  have hget : (u32be d.length ++ t.bytes ++ d ++ u32be X).getD j 0 =
      (u32be X).getD (j - (8 + d.length)) 0 := by
    rw [hassoc, List.getD_append_right _ _ _ _ (by rw [hhead]; omega), hhead]
  unfold flipBit
  rw [hget, hassoc, List.set_append, if_neg (by rw [hhead]; omega), hhead]

/-- C4: for every validly serialized chunk, flipping any single bit in the
payload region (bytes 8 to 8+len-1) or in the trailing 4-byte CRC field makes
`Chunk::try_from` fail with the CRC-mismatch `InvalidData` error. -/
theorem c4_single_bit_flip_fails_crc (t : ChunkType) (d : List Nat)
    (h0 : isAsciiLetter t.b0 = true) (h1 : isAsciiLetter t.b1 = true)
    (h2 : isAsciiLetter t.b2 = true) (h3 : isAsciiLetter t.b3 = true)
    (hd : ∀ b ∈ d, b < 256) (j k : Nat) (hk : k < 8)
    (hj8 : 8 ≤ j) (hjlt : j < 12 + d.length) :
    Chunk.tryFrom (flipBit (Chunk.new t d).as_bytes j k) = ChunkParseResult.errCrc := by
  have hXlt : crc32 (t.bytes ++ d) < 2 ^ 32 :=
    crc32_lt _ (new_as_bytes_mem_lt d h0 h1 h2 h3 hd)
  have hshape : (Chunk.new t d).as_bytes =
      u32be d.length ++ t.bytes ++ d ++ u32be (crc32 (t.bytes ++ d)) := rfl
  set X := crc32 (t.bytes ++ d) with hXdef
  have hbe : fromBE4 (X / 2 ^ 24 % 256) (X / 2 ^ 16 % 256) (X / 2 ^ 8 % 256) (X % 256) = X := by
    simp only [fromBE4]
    omega
  by_cases hcase : j < 8 + d.length
  · rw [hshape, flip_as_bytes_payload t d X j k hj8 hcase]
    have hp : j - 8 < d.length := by omega
    have hmem : d.getD (j - 8) 0 ∈ d := by
      rw [List.getD_eq_getElem d 0 hp]
      exact List.getElem_mem hp
    have hvlt : d.getD (j - 8) 0 ^^^ 2 ^ k < 256 := xor_lt_256 (hd _ hmem) hk
    have hvne : d.getD (j - 8) 0 ^^^ 2 ^ k ≠ d.getD (j - 8) 0 := xor_two_pow_ne _ _
    have hne : ¬ crc32 (t.bytes ++ d.set (j - 8) (d.getD (j - 8) 0 ^^^ 2 ^ k)) = X := by
      rw [hXdef]
      exact crc32_set_ne t.bytes d
        (fun b hb => by have := chunkType_bytes_lt h0 h1 h2 h3 b hb; omega)
        hd (j - 8) hp _ hvlt hvne
    have hu : u32be X = [X / 2 ^ 24 % 256, X / 2 ^ 16 % 256, X / 2 ^ 8 % 256, X % 256] := rfl
    rw [hu, tryFrom_structured t h0 h1 h2 h3 (d.set (j - 8) (d.getD (j - 8) 0 ^^^ 2 ^ k))
      _ _ _ _, hbe, if_neg hne]
  · push_neg at hcase
    rw [hshape, flip_as_bytes_crcfield t d X j k hcase hjlt]
    obtain hq | hq | hq | hq : j - (8 + d.length) = 0 ∨ j - (8 + d.length) = 1 ∨
        j - (8 + d.length) = 2 ∨ j - (8 + d.length) = 3 := by omega
    · rw [hq]
      have hu : (u32be X).set 0 ((u32be X).getD 0 0 ^^^ 2 ^ k) =
          [X / 2 ^ 24 % 256 ^^^ 2 ^ k, X / 2 ^ 16 % 256, X / 2 ^ 8 % 256, X % 256] := rfl
      rw [hu, tryFrom_structured t h0 h1 h2 h3 d _ _ _ _, if_neg ?_]
      intro habs
      have hvlt : X / 2 ^ 24 % 256 ^^^ 2 ^ k < 256 := xor_lt_256 (by omega) hk
      have hvne := xor_two_pow_ne (X / 2 ^ 24 % 256) k
      rw [← hXdef] at habs
      simp only [fromBE4] at habs
      omega
    · rw [hq]
      have hu : (u32be X).set 1 ((u32be X).getD 1 0 ^^^ 2 ^ k) =
          [X / 2 ^ 24 % 256, X / 2 ^ 16 % 256 ^^^ 2 ^ k, X / 2 ^ 8 % 256, X % 256] := rfl
      rw [hu, tryFrom_structured t h0 h1 h2 h3 d _ _ _ _, if_neg ?_]
      intro habs
      have hvlt : X / 2 ^ 16 % 256 ^^^ 2 ^ k < 256 := xor_lt_256 (by omega) hk
      have hvne := xor_two_pow_ne (X / 2 ^ 16 % 256) k
      rw [← hXdef] at habs
      simp only [fromBE4] at habs
      omega
    · rw [hq]
      have hu : (u32be X).set 2 ((u32be X).getD 2 0 ^^^ 2 ^ k) =
          [X / 2 ^ 24 % 256, X / 2 ^ 16 % 256, X / 2 ^ 8 % 256 ^^^ 2 ^ k, X % 256] := rfl
      rw [hu, tryFrom_structured t h0 h1 h2 h3 d _ _ _ _, if_neg ?_]
      intro habs
      have hvlt : X / 2 ^ 8 % 256 ^^^ 2 ^ k < 256 := xor_lt_256 (by omega) hk
      have hvne := xor_two_pow_ne (X / 2 ^ 8 % 256) k
      rw [← hXdef] at habs
      simp only [fromBE4] at habs
      omega
    · rw [hq]
      have hu : (u32be X).set 3 ((u32be X).getD 3 0 ^^^ 2 ^ k) =
          [X / 2 ^ 24 % 256, X / 2 ^ 16 % 256, X / 2 ^ 8 % 256, X % 256 ^^^ 2 ^ k] := rfl
      rw [hu, tryFrom_structured t h0 h1 h2 h3 d _ _ _ _, if_neg ?_]
      intro habs
      have hvlt : X % 256 ^^^ 2 ^ k < 256 := xor_lt_256 (by omega) hk
      have hvne := xor_two_pow_ne (X % 256) k
      rw [← hXdef] at habs
      simp only [fromBE4] at habs
      omega

theorem c4_single_bit_flip_fails_crc_witness :
    ((0 : Nat) < 8 ∧ (8 : Nat) ≤ 8 ∧ (8 : Nat) < 12 + 5) ∧
    Chunk.tryFrom
      (flipBit (Chunk.new ⟨116, 101, 83, 116⟩ [104, 101, 108, 108, 111]).as_bytes 8 0)
      = ChunkParseResult.errCrc :=
  ⟨⟨by decide, by decide, by decide⟩,
    c4_single_bit_flip_fails_crc ⟨116, 101, 83, 116⟩ [104, 101, 108, 108, 111]
      (by decide) (by decide) (by decide) (by decide) (by decide) 8 0
      (by decide) (by decide) (by decide)⟩

/-- Generic shape of a freshly constructed chunk's serialization. -/
lemma new_as_bytes_shape (t : ChunkType) (d : List Nat) :
    (Chunk.new t d).as_bytes =
      u32be d.length ++ (t.bytes ++ (d ++ u32be (crc32 (t.bytes ++ d)))) := by
  rw [Chunk.as_bytes, List.append_assoc, List.append_assoc]
  rfl

lemma new_data (t : ChunkType) (d : List Nat) : (Chunk.new t d).data = d := rfl

lemma as_bytes_length (c : Chunk) : c.as_bytes.length = c.data.length + 12 := by
  simp only [Chunk.as_bytes, List.length_append, u32be_length, ChunkType.bytes,
    List.length_cons, List.length_nil]
  omega

lemma as_bytes_getD_lt4 (c : Chunk) (i : Nat) (hi : i < 4) :
    c.as_bytes.getD i 0 = (u32be c.data.length).getD i 0 := by
  have hsh : c.as_bytes = u32be c.data.length ++ (c.chunkType.bytes ++ (c.data ++ u32be c.crc)) := by
    rw [Chunk.as_bytes, List.append_assoc, List.append_assoc]
  rw [hsh, List.getD_append _ _ _ i (by rw [u32be_length]; omega)]


/-- C10 counterexample: `Chunk::try_from` can succeed on a slice whose total
length is not `declared length + 12`.  The length check compares
`data.len() as u32` — truncated mod `2^32` — with the declared field, so the
serialization of a chunk with a `2^32`-byte payload (declared field
`2^32 % 2^32 = 0`, total length `2^32 + 12`) parses successfully. -/
theorem c10_counterexample :
    Chunk.tryFrom (Chunk.new rustType (List.replicate (2 ^ 32) 0)).as_bytes
      = ChunkParseResult.ok (Chunk.new rustType (List.replicate (2 ^ 32) 0)) ∧
    (Chunk.new rustType (List.replicate (2 ^ 32) 0)).as_bytes.length ≠
      fromBE4 ((Chunk.new rustType (List.replicate (2 ^ 32) 0)).as_bytes.getD 0 0)
        ((Chunk.new rustType (List.replicate (2 ^ 32) 0)).as_bytes.getD 1 0)
        ((Chunk.new rustType (List.replicate (2 ^ 32) 0)).as_bytes.getD 2 0)
        ((Chunk.new rustType (List.replicate (2 ^ 32) 0)).as_bytes.getD 3 0) + 12 := by
  have hrep : (List.replicate (2 ^ 32) (0 : Nat)).length = 2 ^ 32 :=
    List.length_replicate _ _
  constructor
  · exact tryFrom_new_as_bytes rustType (by decide) (by decide) (by decide) (by decide) _
      (fun b hb => by rw [(List.mem_replicate.mp hb).2]; norm_num)
  · have hlen : (Chunk.new rustType (List.replicate (2 ^ 32) 0)).as_bytes.length
        = 2 ^ 32 + 12 := by
      rw [as_bytes_length, new_data, hrep]
    have hgets : ∀ i, i < 4 →
        (Chunk.new rustType (List.replicate (2 ^ 32) 0)).as_bytes.getD i 0 = 0 := by
      intro i hi
      rw [as_bytes_getD_lt4 _ i hi, new_data, hrep]
      obtain rfl | rfl | rfl | rfl : i = 0 ∨ i = 1 ∨ i = 2 ∨ i = 3 := by omega
      · norm_num [u32be]
      · norm_num [u32be]
      · norm_num [u32be]
      · norm_num [u32be]
    rw [hlen, hgets 0 (by norm_num), hgets 1 (by norm_num), hgets 2 (by norm_num),
      hgets 3 (by norm_num)]
    norm_num [fromBE4]

/-- C10 (amended): `Chunk::try_from` consumes its entire input as one chunk —
the payload is all bytes between offset 8 and the final 4 CRC bytes — and a
successful parse forces `(total length - 12) % 2^32` to equal the declared
length field (for inputs shorter than `2^32 + 12` bytes this means total
length = declared + 12 exactly); appending trailing bytes (any number that is
not a multiple of `2^32`, in particular 1 to `2^32 - 1` of them) to a
well-formed chunk makes the parse fail with the length-mismatch `InvalidData`
error. -/
theorem c10_whole_slice_amended :
    (∀ (bs : List Nat) (c : Chunk), Chunk.tryFrom bs = ChunkParseResult.ok c →
      12 ≤ bs.length ∧
      c.data = (bs.drop 8).take (bs.length - 12) ∧
      (bs.length - 12) % 2 ^ 32 =
        fromBE4 (bs.getD 0 0) (bs.getD 1 0) (bs.getD 2 0) (bs.getD 3 0)) ∧
    (∀ (bs extra : List Nat) (c : Chunk), Chunk.tryFrom bs = ChunkParseResult.ok c →
      0 < extra.length → extra.length < 2 ^ 32 →
      Chunk.tryFrom (bs ++ extra) = ChunkParseResult.errLength) := by
  constructor
  · intro bs c h
    obtain ⟨h12, -, hdata, hdecl, -⟩ := tryFrom_ok_inversion h
    exact ⟨h12, hdata, hdecl⟩
  · intro bs extra c h hk hk32
    obtain ⟨h12, hty, -, hdecl, -⟩ := tryFrom_ok_inversion h
    have hlen : (bs ++ extra).length = bs.length + extra.length := List.length_append _ _
    have hget : ∀ i, i < 8 → (bs ++ extra).getD i 0 = bs.getD i 0 := fun i hi =>
      List.getD_append _ _ _ i (by omega)
    have hnotlt8 : ¬ (bs ++ extra).length < 8 := by rw [hlen]; omega
    have hnotlt12 : ¬ (bs ++ extra).length < 12 := by rw [hlen]; omega
    have hdlen : (((bs ++ extra).drop 8).take ((bs ++ extra).length - 12)).length
        = bs.length + extra.length - 12 := by
      rw [List.length_take, List.length_drop, hlen]
      omega
    have hcond : (((bs ++ extra).drop 8).take ((bs ++ extra).length - 12)).length % 2 ^ 32
        ≠ fromBE4 ((bs ++ extra).getD 0 0) ((bs ++ extra).getD 1 0) ((bs ++ extra).getD 2 0)
            ((bs ++ extra).getD 3 0) := by
      rw [hget 0 (by norm_num), hget 1 (by norm_num), hget 2 (by norm_num),
        hget 3 (by norm_num), hdlen]
      intro habs
      omega
    unfold Chunk.tryFrom
    rw [if_neg hnotlt8, hget 4 (by norm_num), hget 5 (by norm_num), hget 6 (by norm_num),
      hget 7 (by norm_num), hty]
    simp only [if_neg hnotlt12]
    rw [if_pos hcond]

theorem c10_whole_slice_amended_witness :
    Chunk.tryFrom (Chunk.new ⟨65, 98, 67, 100⟩ [7]).as_bytes
      = ChunkParseResult.ok (Chunk.new ⟨65, 98, 67, 100⟩ [7]) ∧
    (Chunk.new ⟨65, 98, 67, 100⟩ [7]).data
      = (((Chunk.new ⟨65, 98, 67, 100⟩ [7]).as_bytes).drop 8).take
          ((Chunk.new ⟨65, 98, 67, 100⟩ [7]).as_bytes.length - 12) ∧
    Chunk.tryFrom ((Chunk.new ⟨65, 98, 67, 100⟩ [7]).as_bytes ++ [0])
      = ChunkParseResult.errLength :=
  ⟨by decide,
    (c10_whole_slice_amended.1 (Chunk.new ⟨65, 98, 67, 100⟩ [7]).as_bytes
      (Chunk.new ⟨65, 98, 67, 100⟩ [7]) (by decide)).2.1,
    c10_whole_slice_amended.2 (Chunk.new ⟨65, 98, 67, 100⟩ [7]).as_bytes [0]
      (Chunk.new ⟨65, 98, 67, 100⟩ [7]) (by decide) (by decide) (by decide)⟩
